import Mathlib

/-!
Verification of the rule-evaluation and decision-orchestration engine of the
`claude-hooks` repository, via a shallow embedding of the Go source into Lean.

Go strings are modelled as `List Char` (`GoStr`); all inputs relevant to the
claims are ASCII, so per-rune operations (`strings.ToLower`, `unicode.IsSpace`)
are modelled by their ASCII behaviour.  Compiled regular expressions are
modelled by matcher functions (`GoStr → Option Nat`) giving the length of the
leftmost-first greedy match at the current position, exactly as the concrete
default patterns of this repository behave; `regexp.FindAllStringIndex` is
modelled by `scanAll`, which is faithful for patterns whose matches are never
empty (true of every pattern in the repository).
-/

set_option maxRecDepth 4096

/-- Go strings, modelled as lists of characters. -/
abbrev GoStr := List Char

/-- Model of `strings.Split(s, sep)` for a one-character separator:
splits at every occurrence of the separator; the empty string yields `[[]]`. -/
def splitOnChar (sep : Char) : GoStr → List GoStr
  | [] => [[]]
  | c :: rest =>
    if c = sep then [] :: splitOnChar sep rest
    else
      match splitOnChar sep rest with
      | [] => [[c]]
      | l :: ls => (c :: l) :: ls

/-- Model of `strings.Split(content, "\n")`. -/
def splitNewline (s : GoStr) : List GoStr := splitOnChar '\n' s

/-- ASCII model of `unicode.IsSpace` (the whitespace set used by
`strings.TrimSpace`): space, tab, newline, vertical tab, form feed, carriage
return. -/
def isGoSpace (c : Char) : Bool :=
  c = ' ' || c = '\t' || c = '\n' || c = Char.ofNat 11 || c = Char.ofNat 12 || c = '\r'

/-- Model of `strings.TrimSpace`. -/
def trimSpace (s : GoStr) : GoStr :=
  ((s.dropWhile isGoSpace).reverse.dropWhile isGoSpace).reverse

/-- ASCII model of `strings.ToLower` (per-rune lowercasing). -/
def toLowerStr (s : GoStr) : GoStr := s.map Char.toLower

/-- Model of `strings.Contains(s, sub)`: whether `sub` occurs within `s`. -/
def goContains : GoStr → GoStr → Bool
  | [], sub => sub.isEmpty
  | s@(_ :: t), sub => sub.isPrefixOf s || goContains t sub

/-- Model of `strings.Index(s, sub)`: byte index of the first occurrence of
`sub` in `s`, or `-1` when there is none. -/
def goIndex : GoStr → GoStr → Int
  | [], sub => if sub.isEmpty then 0 else -1
  | s@(_ :: t), sub =>
    if sub.isPrefixOf s then 0
    else
      let r := goIndex t sub
      if r = -1 then -1 else r + 1

/-- Model of `strings.LastIndex(s, string(c))` for a one-character needle. -/
def goLastIndexChar (s : GoStr) (c : Char) : Int :=
  match s.reverse.findIdx? (· = c) with
  | none => -1
  | some i => (s.length : Int) - 1 - i

/-- Severity / message level (`core.Level`). -/
inductive Level where
  | critical
  | error
  | warning
  | info
deriving DecidableEq, Repr

/-- Final verdict of one invocation (`core.HookAction`). -/
inductive HookAction where
  | allow
  | block
  | warn
deriving DecidableEq, Repr

/-- The proposed action received from the caller (`core.ToolInput`); only the
fields read by the engine and checkers are modelled (the raw JSON blob and
session metadata are I/O plumbing). -/
structure ToolInput where
  toolName : GoStr
  filePath : GoStr := []
  content : GoStr := []
  newString : GoStr := []
  command : GoStr := []
  transcriptPath : GoStr := []
deriving DecidableEq, Repr

/-- File snapshot handed to the rule checkers (`core.FileAnalysis`). -/
structure FileAnalysis where
  path : GoStr
  content : GoStr
  extension : GoStr := []
  isTestFile : Bool := false
  isDocsFile : Bool := false
deriving DecidableEq, Repr

/-- One detected rule breach (`core.Violation`). -/
structure Violation where
  vtype : String
  message : String
  suggestion : String := ""
  line : Int := 0
  column : Int := 0
  severity : Level
deriving DecidableEq, Repr

/-- Result of one checker run (`core.ValidationResult`). -/
structure ValidationResult where
  isValid : Bool
  violations : List Violation := []
  suggestions : List String := []
  modifiedToolInput : Option ToolInput := none
deriving DecidableEq, Repr

/-- The final decision record of the engine (`core.HookResponse`); the wall-clock
timestamp and duration fields are not modelled. -/
structure HookResponse where
  action : HookAction
  message : String
  suggestions : List String
  level : Level
  violations : List Violation
  modifiedToolInput : Option ToolInput := none
deriving DecidableEq, Repr

/-- One pattern occurrence reported by the pattern matcher
(`shared.PatternMatch`). -/
structure PatternMatch where
  line : Int
  column : Int
  text : GoStr
  pattern : String
deriving DecidableEq, Repr

/-- A compiled pattern, modelled by its source text and a matcher giving the
length of the (leftmost-first, greedy) match starting at the head of the given
suffix, or `none` when no match starts there. -/
structure Pattern where
  regexStr : String
  matchAt : GoStr → Option Nat

/-- Inner loop of the model of `regexp.FindAllStringIndex(line, -1)`: scans
positions left to right, emitting the half-open interval of each match and
resuming after its end (matches of length zero are not emitted: no pattern in
this repository can match the empty string, so the Go empty-match adjustment
never triggers).  The first argument is a structural-recursion bound: every
step consumes at least one character, so a bound equal to the remaining
length never runs out. -/
def scanAllAux (m : GoStr → Option Nat) : Nat → GoStr → Nat → List (Nat × Nat)
  | 0, _, _ => []
  | _ + 1, [], _ => []
  | fuel + 1, c :: t, i =>
    match m (c :: t) with
    | some (l + 1) => (i, i + l + 1) :: scanAllAux m fuel (t.drop l) (i + l + 1)
    | _ => scanAllAux m fuel t (i + 1)

/-- All non-overlapping matches of a matcher in a line, as `(start, end)`
half-open index pairs (model of `FindAllStringIndex(line, -1)`). -/
def scanAll (m : GoStr → Option Nat) (line : GoStr) : List (Nat × Nat) :=
  scanAllAux m line.length line 0

/-- Matches of every pattern in one line, tagged with the 1-based line number
(the two inner loops of `shared.FindPatternMatches`). -/
def findMatchesLine (pats : List Pattern) (lineNum : Nat) (line : GoStr) :
    List PatternMatch :=
  pats.flatMap fun p =>
    (scanAll p.matchAt line).map fun loc =>
      { line := (lineNum : Int) + 1
        column := (loc.1 : Int) + 1
        text := (line.drop loc.1).take (loc.2 - loc.1)
        pattern := p.regexStr }

/-- Outer loop of `shared.FindPatternMatches`, carrying the 0-based line
counter. -/
def findPatternMatchesAux (pats : List Pattern) : Nat → List GoStr → List PatternMatch
  | _, [] => []
  | n, l :: ls => findMatchesLine pats n l ++ findPatternMatchesAux pats (n + 1) ls

/-- Model of `shared.FindPatternMatches(content, patterns)`: split the content
on newlines and report every match of every pattern in every line. -/
def FindPatternMatches (content : GoStr) (pats : List Pattern) : List PatternMatch :=
  findPatternMatchesAux pats 0 (splitNewline content)

/-- Model of `shared.CreateViolation`. -/
def CreateViolation (m : PatternMatch) (vtype message suggestion : String)
    (severity : Level) : Violation :=
  { vtype := vtype, message := message, suggestion := suggestion,
    line := m.line, column := m.column, severity := severity }

/-- Model of `shared.GetFileName`: the last path segment, without its
extension. -/
def getFileName (filePath : GoStr) : GoStr :=
  let parts := splitOnChar '/' filePath
  match parts.getLast? with
  | none => []
  | some fileName =>
    let dotIndex := goLastIndexChar fileName '.'
    if dotIndex > 0 then fileName.take dotIndex.toNat else fileName

/-- Model of `core.getFileExtension`: everything after the last dot, with the
dot, or the empty string when there is no dot. -/
def getFileExtension (filePath : GoStr) : GoStr :=
  let parts := splitOnChar '.' filePath
  if parts.length > 1 then '.' :: (parts.getLastD []) else []

/-- Model of `strings.EqualFold` restricted to ASCII. -/
def equalFold (a b : GoStr) : Bool := toLowerStr a = toLowerStr b

/-- Model of `shared.IsDocumentationFile` (identical to
`core.isDocumentationFile`). -/
def isDocumentationFile (filePath : GoStr) : Bool :=
  [".md".toList, ".txt".toList, ".rst".toList, ".adoc".toList].any
      (fun ext => ext.isSuffixOf (toLowerStr filePath)) ||
    ["README".toList, "CHANGELOG".toList, "LICENSE".toList, "AUTHORS".toList,
        "CONTRIBUTORS".toList].any
      (fun docFile => equalFold (getFileName filePath) docFile) ||
    ["/docs/".toList, "/doc/".toList, "/documentation/".toList].any
      (fun dir => goContains filePath dir)

/-- Model of `shared.IsTestFile` (identical to `core.isTestFile`). -/
def isTestFilePath (filePath : GoStr) : Bool :=
  "_test.go".toList.isSuffixOf filePath ||
    ["/test/".toList, "/tests/".toList, "/testing/".toList].any
      (fun dir => goContains filePath dir) ||
    [".test.ts".toList, ".test.js".toList, ".test.tsx".toList, ".test.jsx".toList,
        ".spec.ts".toList, ".spec.js".toList, ".spec.tsx".toList, ".spec.jsx".toList].any
      (fun pat => pat.isSuffixOf filePath)

/-- Model of `shared.IsExceptionFile`: configured substring allowlist, plus
built-in documentation- and test-file detection. -/
def IsExceptionFile (filePath : GoStr) (exceptions : List GoStr) : Bool :=
  exceptions.any (fun exc => goContains filePath exc) ||
    isDocumentationFile filePath || isTestFilePath filePath

/-- Model of `shared.IsSupportedFileType`. -/
def isSupportedFileType (filePath : GoStr) (supportedExtensions : List GoStr) : Bool :=
  supportedExtensions.any (fun ext => ext.isSuffixOf (toLowerStr filePath))

/-- Model of `core.CreateFileAnalysis`: builds the file snapshot from an
event, preferring `Content` over `NewString`. -/
def CreateFileAnalysis (input : ToolInput) : Option FileAnalysis :=
  if input.filePath = [] then none
  else some
    { path := input.filePath
      extension := getFileExtension input.filePath
      content :=
        if input.content ≠ [] then input.content
        else if input.newString ≠ [] then input.newString
        else []
      isTestFile := isTestFilePath input.filePath
      isDocsFile := isDocumentationFile input.filePath }

/-! ## Forbidden-keyword / default-fallback checker
(`validators/emergency_defaults.go`).  The Go source splits the literal
forbidden keyword into two halves only to avoid the hook matching its own
source; the concatenated word is declared directly here. -/

/-- The forbidden keyword searched for by the emergency-defaults checker. -/
def forbiddenWord : GoStr := "fallback".toList

/-- Configuration of the emergency-defaults checker
(the fields of `core.ValidatorConfig` it reads; `CaseSensitive` is stored by
the Go constructor but never read). -/
structure EmergencyCfg where
  enabled : Bool
  exceptionPaths : List GoStr := []
  caseSensitive : Bool := false
deriving Repr

/-- Model of `EmergencyDefaultsValidator.isNormalGoConstruct`. -/
def isNormalGoConstruct (line : GoStr) : Bool :=
  goContains line ("default:".toList) ||
    (goContains line ("`".toList) && goContains line ("default".toList)) ||
    (goContains line ("func".toList) && goContains line ("Default".toList))

/-- Model of `EmergencyDefaultsValidator.isComment`. -/
def isComment (line : GoStr) : Bool :=
  "//".toList.isPrefixOf line || "#".toList.isPrefixOf line ||
    "/*".toList.isPrefixOf line || "/**".toList.isPrefixOf line ||
    "*".toList.isPrefixOf line

/-- Model of `EmergencyDefaultsValidator.hasLiteralAfterOr`: whether the text
after the first `||` starts (once trimmed) with a quote, backtick or digit. -/
def hasLiteralAfterOr (line : GoStr) : Bool :=
  let idx := goIndex line ("||".toList)
  if idx = -1 then false
  else
    match trimSpace (line.drop (idx.toNat + 2)) with
    | [] => false
    | ch :: _ => ch = '"' || ch = Char.ofNat 39 || ch = '`' || ('0' ≤ ch && ch ≤ '9')

/-- Model of `EmergencyDefaultsValidator.hasLiteralAfterNullish`. -/
def hasLiteralAfterNullish (line : GoStr) : Bool :=
  let idx := goIndex line ("??".toList)
  if idx = -1 then false
  else
    match trimSpace (line.drop (idx.toNat + 2)) with
    | [] => false
    | ch :: _ => ch = '"' || ch = Char.ofNat 39 || ch = '`' || ('0' ≤ ch && ch ≤ '9')

/-- One iteration of the per-line loop of
`EmergencyDefaultsValidator.findViolations`: at most one violation per line,
first matching rule wins. -/
def checkLine (lineNum : Nat) (line : GoStr) : List Violation :=
  let trimmed := trimSpace line
  if trimmed = [] then []
  else if isNormalGoConstruct trimmed then []
  else if isComment trimmed then []
  else if goContains (toLowerStr trimmed) forbiddenWord then
    [{ vtype := "critical_default"
       message := "Обнаружено запрещённое слово в исполняемом коде"
       suggestion := "Используй explicit validation вместо default значений"
       severity := .critical
       line := (lineNum : Int) + 1
       column := goIndex (toLowerStr trimmed) forbiddenWord + 1 }]
  else if goContains trimmed ("||".toList) && hasLiteralAfterOr trimmed then
    [{ vtype := "critical_default"
       message := "Обнаружен || default паттерн"
       suggestion := "Используй explicit validation: if (!value) throw new Error(\x27required\x27)"
       severity := .critical
       line := (lineNum : Int) + 1
       column := goIndex trimmed ("||".toList) + 1 }]
  else if goContains trimmed ("??".toList) && hasLiteralAfterNullish trimmed then
    [{ vtype := "critical_default"
       message := "Обнаружен ?? default паттерн"
       suggestion := "Используй explicit validation вместо nullish coalescing с default"
       severity := .critical
       line := (lineNum : Int) + 1
       column := goIndex trimmed ("??".toList) + 1 }]
  else if goContains trimmed (":-".toList) && goContains trimmed ("\x7d".toList) then
    [{ vtype := "critical_default"
       message := "Обнаружен bash default паттерн $\x7bVAR:-value\x7d"
       suggestion := "Используй explicit проверку: if [ -z \"$VAR\" ]; then error; fi"
       severity := .critical
       line := (lineNum : Int) + 1
       column := goIndex trimmed (":-".toList) + 1 }]
  else []

/-- Line loop of `EmergencyDefaultsValidator.findViolations`, carrying the
0-based line counter. -/
def findViolationsAux : Nat → List GoStr → List Violation
  | _, [] => []
  | n, l :: ls => checkLine n l ++ findViolationsAux (n + 1) ls

/-- Model of `EmergencyDefaultsValidator.findViolations`. -/
def findViolations (content : GoStr) : List Violation :=
  findViolationsAux 0 (splitNewline content)

/-- Validator-specific path exceptions of the emergency-defaults checker. -/
def emergencyExceptions : List GoStr :=
  ["/test-config.".toList, "/fixture".toList, "/mock".toList, "/stub".toList,
    ".example".toList, ".sample".toList, ".template".toList]

/-- Model of `EmergencyDefaultsValidator.IsExceptionFile` (base exceptions
plus the validator-specific list). -/
def EmergencyIsExceptionFile (cfg : EmergencyCfg) (filePath : GoStr) : Bool :=
  IsExceptionFile filePath cfg.exceptionPaths ||
    emergencyExceptions.any (fun exc => goContains filePath exc)

/-- File extensions accepted by the emergency-defaults checker. -/
def emergencySupportedExts : List GoStr :=
  [".go".toList, ".ts".toList, ".js".toList, ".tsx".toList, ".jsx".toList,
    ".py".toList, ".sh".toList, ".bash".toList]

/-- Fix-up suggestions of the emergency-defaults checker
(`generateSuggestions`, independent of the violations found). -/
def emergencySuggestions : List String :=
  ["Удали default значения из кода",
    "Используй explicit validation: if value == \"\" \x7b return errors.New(\"required\") \x7d",
    "Ошибки конфигурации должны быть явными, не скрытыми default значениями"]

/-- Model of `EmergencyDefaultsValidator.Validate`. -/
def EmergencyValidate (cfg : EmergencyCfg) (file : FileAnalysis) :
    Except String ValidationResult :=
  if !cfg.enabled then .ok { isValid := true }
  else if EmergencyIsExceptionFile cfg file.path then .ok { isValid := true }
  else if !isSupportedFileType file.path emergencySupportedExts then .ok { isValid := true }
  else
    let violations := findViolations file.content
    if violations = [] then .ok { isValid := true }
    else .ok { isValid := false, violations := violations,
               suggestions := emergencySuggestions }

/-! ## Secret checker (`validators/secrets.go`), with its default patterns. -/

/-- Hexadecimal digit class `[a-fA-F0-9]`. -/
def isHexDigit (c : Char) : Bool :=
  ('0' ≤ c && c ≤ '9') || ('a' ≤ c && c ≤ 'f') || ('A' ≤ c && c ≤ 'F')

/-- Character class `[a-zA-Z0-9+/]` of the JWT pattern body. -/
def isB64Char (c : Char) : Bool :=
  ('a' ≤ c && c ≤ 'z') || ('A' ≤ c && c ≤ 'Z') || ('0' ≤ c && c ≤ '9') ||
    c = '+' || c = '/'

/-- Alphanumeric class `[a-zA-Z0-9]` of the API-key pattern body. -/
def isAlnumChar (c : Char) : Bool :=
  ('a' ≤ c && c ≤ 'z') || ('A' ≤ c && c ≤ 'Z') || ('0' ≤ c && c ≤ '9')

/-- Matcher of the default wallet pattern `0x[a-fA-F0-9]\x7b40\x7d`: a match at
the current position is `0x` followed by exactly 40 hex digits (length 42). -/
def walletMatchAt (s : GoStr) : Option Nat :=
  match s with
  | '0' :: 'x' :: rest =>
    if 40 ≤ rest.length && (rest.take 40).all isHexDigit then some 42 else none
  | _ => none

/-- Matcher of the default JWT pattern `eyJ[a-zA-Z0-9+/]+`: the literal `eyJ`
followed by a maximal non-empty run of base64url-ish characters. -/
def jwtMatchAt (s : GoStr) : Option Nat :=
  match s with
  | 'e' :: 'y' :: 'J' :: rest =>
    let run := (rest.takeWhile isB64Char).length
    if run = 0 then none else some (3 + run)
  | _ => none

/-- Recognized API-key prefixes of the pattern
`(sk_|pk_|api_key_|access_token_)[a-zA-Z0-9]\x7b20,\x7d`. -/
def apiKeyPrefixes : List GoStr :=
  ["sk_".toList, "pk_".toList, "api_key_".toList, "access_token_".toList]

/-- Matcher of the default API-key pattern: one of the recognized prefixes
followed by a maximal run of at least 20 alphanumerics. -/
def apiKeyMatchAt (s : GoStr) : Option Nat :=
  match apiKeyPrefixes.find? (fun p => p.isPrefixOf s) with
  | none => none
  | some p =>
    let run := ((s.drop p.length).takeWhile isAlnumChar).length
    if 20 ≤ run then some (p.length + run) else none

/-- The default JWT pattern as a `Pattern`. -/
def jwtPattern : Pattern := { regexStr := "eyJ[a-zA-Z0-9+/]+", matchAt := jwtMatchAt }

/-- The default wallet pattern as a `Pattern`. -/
def walletPattern : Pattern :=
  { regexStr := "0x[a-fA-F0-9]\x7b40\x7d", matchAt := walletMatchAt }

/-- The API-key pattern as a `Pattern`. -/
def apiKeyPattern : Pattern :=
  { regexStr := "(sk_|pk_|api_key_|access_token_)[a-zA-Z0-9]\x7b20,\x7d",
    matchAt := apiKeyMatchAt }

/-- Configuration of the secret checker (the fields of `core.ValidatorConfig`
it reads); the default compiled patterns are modelled directly, custom
`JWTPattern`/`WalletPattern` strings being out of the modelled scope (every
claim concerns the defaults). -/
structure SecretsCfg where
  enabled : Bool
  exceptionPaths : List GoStr := []
  testConfigExceptions : List GoStr := []
deriving Repr

/-- Model of `SecretsValidator.isTestConfigException`. -/
def isTestConfigException (cfg : SecretsCfg) (filePath : GoStr) : Bool :=
  cfg.testConfigExceptions.any (fun exc => goContains filePath exc)

/-- Validator-specific path exceptions of the secret checker. -/
def secretsExceptions : List GoStr :=
  ["/example".toList, "/sample".toList, "/template".toList, "/demo".toList,
    ".example".toList, ".sample".toList, ".template".toList,
    "/fixtures/".toList, "/mocks/".toList, "/stubs/".toList]

/-- Model of `SecretsValidator.IsExceptionFile` (base exceptions, the
validator-specific list, and the test-config exceptions). -/
def SecretsIsExceptionFile (cfg : SecretsCfg) (filePath : GoStr) : Bool :=
  IsExceptionFile filePath cfg.exceptionPaths ||
    secretsExceptions.any (fun exc => goContains filePath exc) ||
    isTestConfigException cfg filePath

/-- File extensions accepted by the secret checker. -/
def secretsSupportedExts : List GoStr :=
  [".go".toList, ".ts".toList, ".js".toList, ".tsx".toList, ".jsx".toList,
    ".py".toList, ".json".toList, ".yaml".toList, ".yml".toList]

/-- Model of `SecretsValidator.checkJWTTokens`. -/
def checkJWTTokens (cfg : SecretsCfg) (file : FileAnalysis) : List Violation :=
  (FindPatternMatches file.content [jwtPattern]).filterMap fun m =>
    if isTestConfigException cfg file.path then none
    else some (CreateViolation m ("hardcoded_jwt")
      "Обнаружен hardcoded JWT токен"
      "Используй переменные окружения или test-config" .critical)

/-- Model of `SecretsValidator.checkWalletAddresses`. -/
def checkWalletAddresses (cfg : SecretsCfg) (file : FileAnalysis) : List Violation :=
  (FindPatternMatches file.content [walletPattern]).filterMap fun m =>
    if isTestConfigException cfg file.path then none
    else some (CreateViolation m ("hardcoded_wallet")
      "Обнаружен hardcoded wallet address"
      "Используй TEST_ACCOUNTS из test-config или переменные окружения" .critical)

/-- Model of `SecretsValidator.checkAPIKeys`. -/
def checkAPIKeys (cfg : SecretsCfg) (file : FileAnalysis) : List Violation :=
  (FindPatternMatches file.content [apiKeyPattern]).filterMap fun m =>
    if isTestConfigException cfg file.path then none
    else some (CreateViolation m ("hardcoded_api_key")
      "Обнаружен hardcoded API ключ"
      "Используй переменные окружения или конфигурационный файл" .critical)

/-- Model of `SecretsValidator.generateSuggestions`: extension-specific
environment-variable guidance followed by general secret hygiene. -/
def secretsGenerateSuggestions (file : FileAnalysis) : List String :=
  let ext := toLowerStr file.extension
  (if ext = ".go".toList then
      ["Используй os.Getenv() для чтения переменных окружения",
        "Добавь валидацию обязательных переменных при старте приложения",
        "Используй unified config для централизованного управления настройками"]
    else if ext = ".ts".toList || ext = ".js".toList || ext = ".tsx".toList ||
        ext = ".jsx".toList then
      ["Используй process.env.VARIABLE_NAME",
        "Создай test-config.ts для тестовых данных",
        "Используй TEST_ACCOUNTS константы вместо hardcoded значений"]
    else if ext = ".json".toList || ext = ".yaml".toList || ext = ".yml".toList then
      ["Используй environment variable substitution",
        "Создай отдельные конфигурации для test/dev/prod окружений",
        "Документируй все требуемые переменные окружения"]
    else []) ++
  ["Никогда не коммить реальные секреты в репозиторий",
    "Используй .env файлы для локальной разработки (добавь в .gitignore)",
    "Рассмотри использование секрет-менеджеров (HashiCorp Vault, AWS Secrets Manager)",
    "Для тестов создавай фиксированные тестовые данные в отдельных файлах"]

/-- Model of `SecretsValidator.Validate` with the default patterns. -/
def SecretsValidate (cfg : SecretsCfg) (file : FileAnalysis) :
    Except String ValidationResult :=
  if !cfg.enabled then .ok { isValid := true }
  else if SecretsIsExceptionFile cfg file.path then .ok { isValid := true }
  else if !isSupportedFileType file.path secretsSupportedExts then .ok { isValid := true }
  else
    let violations :=
      checkJWTTokens cfg file ++ checkWalletAddresses cfg file ++ checkAPIKeys cfg file
    if violations = [] then .ok { isValid := true }
    else .ok { isValid := false, violations := violations,
               suggestions := secretsGenerateSuggestions file }

/-! ## Forced-termination checker (`validators/runtime_exit.go`).  The Go
source splits the pattern literals into halves only to avoid matching its own
source; the joined literals are declared directly. -/

/-- The RE2 character class `\s` (`[\t\n\f\r ]`). -/
def isRegexSpace (c : Char) : Bool :=
  c = '\t' || c = '\n' || c = Char.ofNat 12 || c = '\r' || c = ' '

/-- Matcher of a pattern of the shape `lit\s*\(`: the literal, a maximal run
of whitespace, then an opening parenthesis. -/
def litWsParen (lit : GoStr) (s : GoStr) : Option Nat :=
  if lit.isPrefixOf s then
    let rest := s.drop lit.length
    let w := (rest.takeWhile isRegexSpace).length
    match rest.drop w with
    | '(' :: _ => some (lit.length + w + 1)
    | _ => none
  else none

/-- The five termination-call patterns compiled by
`RuntimeExitValidator.compilePatterns`, in source order. -/
def runtimePatterns : List Pattern :=
  [{ regexStr := "panic\\s*\\(", matchAt := litWsParen ("panic".toList) },
    { regexStr := "log\\.Fatal\\s*\\(", matchAt := litWsParen ("log.Fatal".toList) },
    { regexStr := "log\\.Fatalf\\s*\\(", matchAt := litWsParen ("log.Fatalf".toList) },
    { regexStr := "log\\.Fatalln\\s*\\(", matchAt := litWsParen ("log.Fatalln".toList) },
    { regexStr := "os\\.Exit\\s*\\(", matchAt := litWsParen ("os.Exit".toList) }]

/-- Configuration of the forced-termination checker (the fields of
`core.ValidatorConfig` it reads; `ProductionPaths` is stored but deliberately
no longer used by `IsExceptionFile`). -/
structure RuntimeCfg where
  enabled : Bool
  exceptionPaths : List GoStr := []
  goFilesOnly : Bool := false
  testExceptions : List GoStr := []
  productionPaths : List GoStr := []
deriving Repr

/-- Validator-specific path exceptions of the forced-termination checker:
command-line entrypoints, examples/demos and benchmarks. -/
def runtimeExitExceptions : List GoStr :=
  ["/cmd/".toList, "/main.go".toList, "/examples/".toList, "/demo/".toList,
    "/benchmark/".toList, "_bench.go".toList]

/-- Model of `RuntimeExitValidator.IsExceptionFile`: base exceptions plus the
entrypoint/example/benchmark carve-outs (and nothing else — the
production-paths carve-out was removed in the source). -/
def RuntimeIsExceptionFile (cfg : RuntimeCfg) (filePath : GoStr) : Bool :=
  IsExceptionFile filePath cfg.exceptionPaths ||
    runtimeExitExceptions.any (fun exc => goContains filePath exc)

/-- Model of `RuntimeExitValidator.isTestFile`: the shared test-file
convention plus configured extra test exceptions. -/
def runtimeIsTestFile (cfg : RuntimeCfg) (filePath : GoStr) : Bool :=
  isTestFilePath filePath ||
    cfg.testExceptions.any (fun exc => goContains filePath exc)

/-- Model of `RuntimeExitValidator.determineViolationType`: the violation
sub-type is derived from which pattern family matched. -/
def determineViolationType (matchText : GoStr) : String :=
  if goContains matchText ("panic".toList) then ("runtime_exit_usage")
  else if goContains matchText ("Fatal".toList) then ("log_fatal_usage")
  else ("critical_exit")

/-- Model of `RuntimeExitValidator.generateViolationMessage`. -/
def runtimeViolationMessage (violationType : String) : String :=
  if violationType = "runtime_exit_usage" then
    "Использование критического выхода в production коде запрещено"
  else if violationType = "log_fatal_usage" then
    "Использование критического логирования в production коде не рекомендуется"
  else if violationType = "critical_exit" then
    "Критическое завершение программы в production коде"
  else ("Обнаружено критическое нарушение в production коде")

/-- Model of `RuntimeExitValidator.generateSuggestion`. -/
def runtimeViolationSuggestion (violationType : String) : String :=
  if violationType = "runtime_exit_usage" then
    "Используй return fmt.Errorf(\"error: %w\", err) вместо критического выхода"
  else if violationType = "log_fatal_usage" then
    "Используй logger.Error() и graceful shutdown вместо критического логирования"
  else if violationType = "critical_exit" then
    "Реализуй graceful error handling вместо принудительного завершения"
  else ("Реализуй корректную обработку ошибок")

/-- Whether a matcher matches anywhere in the content (model of
`Regexp.MatchString`). -/
def existsMatch (m : GoStr → Option Nat) (s : GoStr) : Bool :=
  (List.range (s.length + 1)).any fun i => (m (s.drop i)).isSome

/-- Matcher of the pattern `recover\s*\(\s*\)`. -/
def recoverMatchAt (s : GoStr) : Option Nat :=
  if ("recover").toList.isPrefixOf s then
    let rest := s.drop 7
    let w1 := (rest.takeWhile isRegexSpace).length
    match rest.drop w1 with
    | '(' :: rest2 =>
      let w2 := (rest2.takeWhile isRegexSpace).length
      match rest2.drop w2 with
      | ')' :: _ => some (7 + w1 + 1 + w2 + 1)
      | _ => none
    | _ => none
  else none

/-- Model of `RuntimeExitValidator.containsRecoverPattern`. -/
def containsRecoverPattern (content : GoStr) : Bool :=
  existsMatch recoverMatchAt content

/-- Model of `RuntimeExitValidator.generateSuggestions`: five base
suggestions, plus contextual ones when the file uses `recover()` or contains
an entrypoint function. -/
def runtimeGenerateSuggestions (file : FileAnalysis) : List String :=
  (["Используй error возврат из функций: func() error \x7b return fmt.Errorf(...) \x7d",
      "Реализуй graceful error handling на уровне приложения",
      "Добавь context.Context для возможности отмены операций",
      "Используй defer recover() только в критических местах",
      "Документируй все возможные ошибки в godoc комментариях"] ++
    (if containsRecoverPattern file.content then
        ["Если используешь recover(), убедись что это оправдано архитектурно",
          "Рассмотри альтернативы для error handling"]
      else [])) ++
  (if goContains file.content ("func main()".toList) then
      ["В main() функции можно использовать критическое логирование для ошибок инициализации",
        "Рассмотри использование cobra.Command с RunE для CLI приложений"]
    else [])

/-- Model of `RuntimeExitValidator.Validate`. -/
def RuntimeValidate (cfg : RuntimeCfg) (file : FileAnalysis) :
    Except String ValidationResult :=
  if !cfg.enabled then .ok { isValid := true }
  else if cfg.goFilesOnly && !(".go".toList.isSuffixOf file.path) then
    .ok { isValid := true }
  else if RuntimeIsExceptionFile cfg file.path then .ok { isValid := true }
  else if runtimeIsTestFile cfg file.path then .ok { isValid := true }
  else
    let ms := FindPatternMatches file.content runtimePatterns
    if ms = [] then .ok { isValid := true }
    else
      let violations := ms.map fun m =>
        let violationType := determineViolationType m.text
        CreateViolation m violationType (runtimeViolationMessage violationType)
          (runtimeViolationSuggestion violationType) .critical
      .ok { isValid := false, violations := violations,
            suggestions := runtimeGenerateSuggestions file }

/-! ## Tool checkers (`tools/`): shell-command checker, formatter, notifier.
External-process effects (running `gofmt`/`prettier`, playing sounds, reading
the working directory) are I/O; they are abstracted into environment values
whose shape matches exactly what the Go code does with the outcomes. -/

/-- A checker keyed by the kind of action (`core.ToolValidator`): its name,
supported event kinds, and its evaluation, which receives the hook phase (the
`hook_phase` context value) and the — possibly already rewritten — event. -/
structure ToolChecker where
  name : String
  supportedTools : List GoStr
  validateTool : String → ToolInput → Except String ValidationResult

/-- A file-content rule checker (`core.Validator`). -/
structure RuleChecker where
  name : String
  validate : FileAnalysis → Except String ValidationResult

/-- Configuration of the shell-command checker: the enable flag and the
resolved blocked-pattern list. -/
structure BashCfg where
  enabled : Bool
  blockedPatterns : List GoStr := []
deriving Repr

/-- Model of `tools.extractCommand`. -/
def extractCommand (input : ToolInput) : GoStr :=
  if input.toolName = "Bash".toList then input.command else []

/-- The blocked-pattern loop of `BashTool.ValidateTool`: one critical
violation per configured pattern contained in the command. -/
def bashViolations (cfg : BashCfg) (command : GoStr) : List Violation :=
  cfg.blockedPatterns.filterMap fun pat =>
    if goContains command pat then
      some { vtype := "dangerous_bash_command"
             message := "Dangerous bash command detected: " ++ String.mk pat
             suggestion := "Avoid potentially destructive commands"
             severity := .critical
             line := 1
             column := goIndex command pat + 1 }
    else none

/-- Model of `BashTool.ValidateTool`: any configured blocked pattern contained
in the command is a critical violation; non-`Bash` events are always valid. -/
def BashValidateTool (cfg : BashCfg) (input : ToolInput) :
    Except String ValidationResult :=
  if !cfg.enabled then .ok { isValid := true }
  else if input.toolName ≠ "Bash".toList then .ok { isValid := true }
  else
    let command := extractCommand input
    if command = [] then .ok { isValid := true }
    else
      let violations := bashViolations cfg command
      .ok { isValid := violations.isEmpty, violations := violations }

/-- Model of `tools.NewBashTool`: `BlockedPatterns` from config, falling back
to `DangerousCommands` when empty; supports only `Bash` events. -/
def bashToolChecker (cfg : BashCfg) : ToolChecker :=
  { name := "bash"
    supportedTools := ["Bash".toList]
    validateTool := fun _phase input => BashValidateTool cfg input }

/-- Outcome of one external formatter run (`formatGoFile`/`formatTSFile`):
skipped (binary missing, which yields no violation), formatted, or failed
with an error message. -/
inductive FmtOutcome where
  | skipped
  | formatted
  | failed (msg : String)

/-- The I/O environment of the formatter tool: the outcome of formatting a
given file with the Go and TS formatters respectively. -/
structure FormatterEnv where
  goOutcome : GoStr → FmtOutcome
  tsOutcome : GoStr → FmtOutcome

/-- Configuration of the formatter tool. -/
structure FormatterCfg where
  enabled : Bool
  goFormat : Bool := false
  tsFormat : Bool := false
deriving Repr

/-- Model of `FormatterTool.isGoFile`. -/
def isGoFile (filePath : GoStr) : Bool := ".go".toList.isSuffixOf filePath

/-- Model of `FormatterTool.isTSFile`. -/
def isTSFile (filePath : GoStr) : Bool :=
  ".ts".toList.isSuffixOf filePath || ".tsx".toList.isSuffixOf filePath ||
    ".js".toList.isSuffixOf filePath || ".jsx".toList.isSuffixOf filePath

/-- Violations/suggestions contributed by one formatter family, given its
outcome (`FormatterTool.ValidateTool` inner blocks): a failure is a warning
violation, a successful format a suggestion, never blocking. -/
def fmtContribution (outcome : FmtOutcome) (errMessage okSuggestion : String) :
    List Violation × List String :=
  match outcome with
  | .skipped => ([], [])
  | .formatted => ([], [okSuggestion])
  | .failed msg =>
    ([{ vtype := "format_error", message := errMessage ++ msg,
        suggestion := "Проверь синтаксис кода", severity := .warning }], [])

/-- Model of `FormatterTool.ValidateTool`: runs only in the `post` phase and
always reports `IsValid = true`. -/
def FormatterValidateTool (cfg : FormatterCfg) (env : FormatterEnv)
    (phase : String) (input : ToolInput) : Except String ValidationResult :=
  if !cfg.enabled then .ok { isValid := true }
  else if phase ≠ "post" then .ok { isValid := true }
  else if input.filePath = [] then .ok { isValid := true }
  else
    let goPart :=
      if cfg.goFormat && isGoFile input.filePath then
        fmtContribution (env.goOutcome input.filePath)
          "Ошибка форматирования Go файла: " "Go файл автоматически отформатирован"
      else ([], [])
    let tsPart :=
      if cfg.tsFormat && isTSFile input.filePath then
        fmtContribution (env.tsOutcome input.filePath)
          "Ошибка форматирования TS файла: " "TypeScript файл автоматически отформатирован"
      else ([], [])
    .ok { isValid := true, violations := goPart.1 ++ tsPart.1,
          suggestions := goPart.2 ++ tsPart.2 }

/-- Model of `tools.NewFormatterTool`: supports the file-write kinds and runs
post-action. -/
def formatterToolChecker (cfg : FormatterCfg) (env : FormatterEnv) : ToolChecker :=
  { name := "formatter"
    supportedTools := ["Write".toList, "Edit".toList, "MultiEdit".toList]
    validateTool := FormatterValidateTool cfg env }

/-- Model of `NotifierTool.ValidateTool`: on a `Stop` event it dispatches the
(fire-and-forget, I/O) notifications and reports a single `info`-severity
notification record; `projectName` abstracts the transcript-path/working
directory extraction, which is I/O. -/
def NotifierValidateTool (enabled : Bool) (projectName : String)
    (_phase : String) (input : ToolInput) : Except String ValidationResult :=
  if !enabled then .ok { isValid := true }
  else if input.toolName ≠ "Stop".toList then .ok { isValid := true }
  else
    .ok { isValid := true
          violations :=
            [{ vtype := "notification_sent"
               message := "Claude Code session [" ++ projectName ++
                 "] completed - notifications sent"
               suggestion := "Notifications activated for project [" ++ projectName ++ "]"
               severity := .info
               line := 0
               column := 0 }]
          suggestions := ["Notifications sent for project [" ++ projectName ++ "]"] }

/-- Model of `notifier.NewNotifierTool`: supports only `Stop` events. -/
def notifierToolChecker (enabled : Bool) (projectName : String) : ToolChecker :=
  { name := "notifier"
    supportedTools := ["Stop".toList]
    validateTool := NotifierValidateTool enabled projectName }

/-- Tool-checker configuration groups read by `Engine.initTools` (the three
keys of the `tools` config map that the engine looks up). -/
structure ToolsConfig where
  notifier : Option Bool := none
  bash : Option BashCfg := none
  formatter : Option FormatterCfg := none

/-- Model of `Engine.initTools`: notifier, bash and formatter, each added only
when present and enabled, in source order. -/
def mkTools (tc : ToolsConfig) (projectName : String) (env : FormatterEnv) :
    List ToolChecker :=
  (match tc.notifier with
    | some enabled => if enabled then [notifierToolChecker enabled projectName] else []
    | none => []) ++
  (match tc.bash with
    | some cfg => if cfg.enabled then [bashToolChecker cfg] else []
    | none => []) ++
  (match tc.formatter with
    | some cfg => if cfg.enabled then [formatterToolChecker cfg env] else []
    | none => [])

/-! ## Orchestration engine (`processor/engine.go`). -/

/-- The engine: an ordered collection of rule checkers and tool checkers
(the `Engine` struct; configuration and logger are initialization-time). -/
structure Engine where
  validators : List RuleChecker
  tools : List ToolChecker

/-- Model of `Engine.isFileOperation`. -/
def isFileOperation (toolName : GoStr) : Bool :=
  toolName = "Write".toList || toolName = "Edit".toList || toolName = "MultiEdit".toList

/-- Model of `Engine.toolSupportsOperation`. -/
def toolSupportsOperation (tool : ToolChecker) (toolName : GoStr) : Bool :=
  tool.supportedTools.any (fun supported => supported = toolName)

/-- Model of `Engine.determineAction`: any critical violation blocks, else any
warning warns, else allow. -/
def determineAction (violations : List Violation) : HookAction :=
  if violations.any (fun v => v.severity = .critical) then .block
  else if violations.any (fun v => v.severity = .warning) then .warn
  else .allow

/-- Model of `Engine.determineLevel`. -/
def determineLevel (violations : List Violation) : Level :=
  if violations.any (fun v => v.severity = .critical) then .critical
  else if violations.any (fun v => v.severity = .warning) then .warning
  else .info

/-- Model of `Engine.generateMessage`. -/
def generateMessage (action : HookAction) (violations : List Violation) : String :=
  match action with
  | .block =>
    match violations with
    | v :: _ => v.message
    | [] => "Operation blocked"
  | .warn =>
    match violations with
    | v :: _ => v.message
    | [] => "Warning"
  | .allow => "Operation allowed"

/-- Model of `Engine.generatePostProcessMessage`. -/
def generatePostProcessMessage (action : HookAction) (toolName : GoStr) : String :=
  match action with
  | .block => "Post-processing for (" ++ String.mk toolName ++ ") blocked"
  | .warn => "Post-processing for (" ++ String.mk toolName ++ ") completed with warnings"
  | .allow => "Post-processing for (" ++ String.mk toolName ++ ") completed"

/-- Inner loop of `Engine.deduplicateSuggestions`, carrying the seen set. -/
def dedupAux : List String → List String → List String
  | [], _ => []
  | s :: rest, seen =>
    if seen.contains s then dedupAux rest seen
    else s :: dedupAux rest (s :: seen)

/-- Model of `Engine.deduplicateSuggestions`: first-seen order, exact string
equality. -/
def deduplicateSuggestions (suggestions : List String) : List String :=
  dedupAux suggestions []

/-- Model of `Engine.runValidators`: a checker that returns a runtime error is
logged and skipped; a checker whose result is valid contributes nothing. -/
def runValidators (vs : List RuleChecker) (file : FileAnalysis) :
    Except String (List Violation × List String) :=
  match vs with
  | [] => .ok ([], [])
  | v :: rest =>
    match v.validate file with
    | .error _ => runValidators rest file
    | .ok result =>
      match runValidators rest file with
      | .error e => .error e
      | .ok (tailV, tailS) =>
        if result.isValid then .ok (tailV, tailS)
        else .ok (result.violations ++ tailV, result.suggestions ++ tailS)

/-- Inner loop of `Engine.runToolValidators`: the supports-check uses the
original event kind, each checker sees the event as rewritten so far, and a
checker that returns a runtime error is logged and skipped. -/
def runToolValidatorsAux (phase : String) (origName : GoStr) :
    List ToolChecker → ToolInput → Option ToolInput →
    Except String (Option ToolInput × List Violation × List String)
  | [], _, acc => .ok (acc, [], [])
  | t :: rest, current, acc =>
    if !toolSupportsOperation t origName then
      runToolValidatorsAux phase origName rest current acc
    else
      match t.validateTool phase current with
      | .error _ => runToolValidatorsAux phase origName rest current acc
      | .ok result =>
        let current2 := result.modifiedToolInput.getD current
        let acc2 := match result.modifiedToolInput with
          | some m => some m
          | none => acc
        match runToolValidatorsAux phase origName rest current2 acc2 with
        | .error e => .error e
        | .ok (m, tailV, tailS) =>
          .ok (m, result.violations ++ tailV, result.suggestions ++ tailS)

/-- Model of `Engine.runToolValidators`; the returned option is the rewritten
event when some checker rewrote it (the Go code detects rewriting by pointer
inequality with the original event). -/
def runToolValidators (ts : List ToolChecker) (phase : String) (input : ToolInput) :
    Except String (Option ToolInput × List Violation × List String) :=
  runToolValidatorsAux phase input.toolName ts input none

/-- The rule-checker stage of `Engine.ProcessPreToolUse`: the file snapshot is
built when the event has a file path, and the rule checkers run only for the
file-write event kinds. -/
def preFileStep (e : Engine) (input : ToolInput) :
    Except String (List Violation × List String) :=
  let fileAnalysis := if input.filePath ≠ [] then CreateFileAnalysis input else none
  match isFileOperation input.toolName, fileAnalysis with
  | true, some fa => runValidators e.validators fa
  | _, _ => .ok ([], [])

/-- Model of `Engine.ProcessPreToolUse`: builds the file snapshot for
file-write kinds, runs rule checkers then pre-phase tool checkers, and
aggregates the decision. -/
def ProcessPreToolUse (e : Engine) (input : ToolInput) : Except String HookResponse :=
  match preFileStep e input with
  | .error msg => .error ("validators failed: " ++ msg)
  | .ok (fileV, fileS) =>
    match runToolValidators e.tools ("pre") input with
    | .error msg => .error ("tool validators failed: " ++ msg)
    | .ok (modified, toolV, toolS) =>
      let allViolations := fileV ++ toolV
      let allSuggestions := fileS ++ toolS
      let action := determineAction allViolations
      .ok { action := action
            message := generateMessage action allViolations
            suggestions := deduplicateSuggestions allSuggestions
            level := determineLevel allViolations
            violations := allViolations
            modifiedToolInput := modified }

/-- Model of `Engine.ProcessPostToolUse`: only post-phase tool checkers run;
a failure of the tool-validator pass is logged and the decision is built from
an empty violation list. -/
def ProcessPostToolUse (e : Engine) (input : ToolInput) : Except String HookResponse :=
  let collected :=
    match runToolValidators e.tools ("post") input with
    | .error _ => ([], [])
    | .ok (_, toolV, toolS) => (toolV, toolS)
  let allViolations := collected.1
  let action := determineAction allViolations
  .ok { action := action
        message := generatePostProcessMessage action input.toolName
        suggestions := deduplicateSuggestions collected.2
        level := determineLevel allViolations
        violations := allViolations
        modifiedToolInput := none }

/-- Model of `Engine.ProcessStop`: runs stop-phase tool checkers on a
synthetic `Stop` event and always resolves to `allow` at level `info`. -/
def ProcessStop (e : Engine) : Except String HookResponse :=
  let stopInput : ToolInput := { toolName := "Stop".toList }
  let collected :=
    match runToolValidators e.tools ("stop") stopInput with
    | .error _ => ([], [])
    | .ok (_, toolV, toolS) => (toolV, toolS)
  .ok { action := .allow
        message := "Stop processing completed"
        suggestions := deduplicateSuggestions collected.2
        level := .info
        violations := collected.1
        modifiedToolInput := none }

/-! ## Definitions supporting the claim statements. -/

/-- The regex word-character class `\w` (`[0-9A-Za-z_]`). -/
def isWordChar (c : Char) : Bool :=
  ('a' ≤ c && c ≤ 'z') || ('A' ≤ c && c ≤ 'Z') || ('0' ≤ c && c ≤ '9') || c = '_'

/-- Whole-word containment: semantics of the anchored pattern
`\b<w>\b` (the shape compiled — though never consulted — by
`EmergencyDefaultsValidator.compilePatterns`): an occurrence of `w` whose
neighbouring characters, when present, are not word characters. -/
def wholeWordContains (s w : GoStr) : Bool :=
  (List.range (s.length + 1)).any fun i =>
    w.isPrefixOf (s.drop i) &&
    (i == 0 || !isWordChar (s.getD (i - 1) ' ')) &&
    (decide (s.length ≤ i + w.length) || !isWordChar (s.getD (i + w.length) ' '))

/-- A well-formed matcher: every reported match is non-empty and stays within
the scanned suffix (true of every compiled pattern of this repository). -/
def MatcherWF (m : GoStr → Option Nat) : Prop :=
  ∀ s l, m s = some l → 1 ≤ l ∧ l ≤ s.length

/-- The violation emitted by the forbidden-keyword rule of `checkLine` for
line number `n` (0-based) and raw line `l`. -/
def emergencyKeywordViolation (n : Nat) (l : GoStr) : Violation :=
  { vtype := "critical_default"
    message := "Обнаружено запрещённое слово в исполняемом коде"
    suggestion := "Используй explicit validation вместо default значений"
    severity := .critical
    line := (n : Int) + 1
    column := goIndex (toLowerStr (trimSpace l)) forbiddenWord + 1 }

/-- The severity/action correspondence asserted by the spec invariant:
`block` iff a critical violation exists, else `warn` iff a warning exists,
else `allow`. -/
def ActionMatchesSeverity (r : HookResponse) : Prop :=
  (r.action = .block ↔ ∃ v ∈ r.violations, v.severity = .critical) ∧
  (r.action = .warn ↔
    (¬(∃ v ∈ r.violations, v.severity = .critical) ∧
      ∃ v ∈ r.violations, v.severity = .warning)) ∧
  (r.action = .allow ↔
    (¬(∃ v ∈ r.violations, v.severity = .critical) ∧
      ¬(∃ v ∈ r.violations, v.severity = .warning)))

/-- A tool checker that, when it supports `Stop` events, reports only
`info`-severity violations in the stop phase. -/
def StopBenign (t : ToolChecker) : Prop :=
  ∀ input r, toolSupportsOperation t ("Stop".toList) = true →
    t.validateTool ("stop") input = .ok r → ∀ v ∈ r.violations, v.severity = .info

/-- A formatter environment in which both external formatters are absent. -/
def emptyFmtEnv : FormatterEnv :=
  { goOutcome := fun _ => .skipped, tsOutcome := fun _ => .skipped }

/-- A hypothetical tool checker whose evaluation always raises a runtime
error (no concrete checker of the repository ever does). -/
def badToolChecker : ToolChecker :=
  { name := "bad-tool"
    supportedTools := ["Bash".toList]
    validateTool := fun _ _ => .error ("boom") }

/-- A hypothetical rule checker whose evaluation always raises a runtime
error. -/
def badRuleChecker : RuleChecker :=
  { name := "bad-rule", validate := fun _ => .error ("boom") }

/-- A `Bash` event used to exercise the engine with the erroring checkers. -/
def c2Input : ToolInput := { toolName := "Bash".toList, command := "ls".toList }

/-- The default blocked patterns of the shell-command checker
(`core.DefaultConfig`). -/
def defaultBlockedPatterns : List GoStr :=
  ["--headed".toList, "rm -rf /".toList, "rm -rf ~".toList, ":()\x7b :|:& \x7d;:".toList]

/-- The shell-command checker as configured by the default configuration. -/
def defaultBashCfg : BashCfg :=
  { enabled := true, blockedPatterns := defaultBlockedPatterns }

/-- The forced-termination checker with no configured exception paths, as a
rule checker. -/
def runtimeChecker : RuleChecker :=
  { name := "runtime_exit", validate := RuntimeValidate { enabled := true } }

/-- An engine whose only enabled checker is the forced-termination checker. -/
def runtimeOnlyEngine : Engine := { validators := [runtimeChecker], tools := [] }

/-- A line holding a hardcoded wallet address (`0x` + 40 hex digits at
0-based column 7). -/
def walletContent : GoStr :=
  "addr = 0x1234567890abcdef1234567890abcdef12345678".toList

/-- Secret-checker configuration with a configured test-config marker. -/
def c6Cfg : SecretsCfg :=
  { enabled := true, testConfigExceptions := ["test-config.json".toList] }

/-- A Go test file containing the wallet address. -/
def c6File : FileAnalysis :=
  { path := "wallet_test.go".toList, content := walletContent, extension := ".go".toList }


/-- A plain Go file containing the forbidden keyword as a whole word. -/
def c3File : FileAnalysis :=
  { path := "app.go".toList, content := "use fallback now".toList }

/-- Secret-checker configuration used to exercise the amended wallet claim. -/
def c6wCfg : SecretsCfg :=
  { enabled := true, testConfigExceptions := ["test-config".toList] }

/-- A plain Go file containing the wallet address. -/
def c6wFile : FileAnalysis :=
  { path := "wallet.go".toList, content := walletContent, extension := ".go".toList }

/-! ## Lemmas. -/

/-- `goContains` agrees with list-infix containment. -/
lemma goContains_iff (s sub : GoStr) : goContains s sub = true ↔ sub <:+: s := by
  induction s with
  | nil =>
    simp [goContains, List.isEmpty_iff]
  | cons c t ih =>
    rw [goContains]
    simp [List.isPrefixOf_iff_prefix, ih, List.infix_cons_iff]

/-- A whole-word occurrence is in particular a substring occurrence. -/
lemma goContains_of_wholeWord (s w : GoStr) (h : wholeWordContains s w = true) :
    goContains s w = true := by
  rw [goContains_iff]
  unfold wholeWordContains at h
  rw [List.any_eq_true] at h
  obtain ⟨i, _, hcond⟩ := h
  simp only [Bool.and_eq_true] at hcond
  obtain ⟨⟨hp, _⟩, _⟩ := hcond
  have hpre : w <+: s.drop i := List.isPrefixOf_iff_prefix.mp hp
  exact hpre.isInfix.trans (List.drop_suffix i s).isInfix

/-- Every violation produced for a line carries the 1-based number of that line. -/
lemma checkLine_mem_line (n : Nat) (l : GoStr) :
    ∀ v ∈ checkLine n l, v.line = (n : Int) + 1 := by
  intro v hv
  simp only [checkLine] at hv
  split_ifs at hv <;> simp_all

/-- Filtering the violations of a line by its own line number keeps them all. -/
lemma checkLine_filter_self (n : Nat) (l : GoStr) :
    (checkLine n l).filter (fun v => v.line == (n : Int) + 1) = checkLine n l := by
  apply List.filter_eq_self.mpr
  intro v hv
  simp [checkLine_mem_line n l v hv]

/-- Filtering the violations of a line by a different line number drops them all. -/
lemma checkLine_filter_ne (n i : Nat) (hne : n ≠ i) (l : GoStr) :
    (checkLine n l).filter (fun v => v.line == (i : Int) + 1) = [] := by
  rw [List.filter_eq_nil_iff]
  intro v hv
  have hl := checkLine_mem_line n l v hv
  simp only [hl, beq_iff_eq]
  intro hcontra
  exact hne (by omega)

/-- No violation with a line number below the running counter is produced. -/
lemma findViolationsAux_filter_lt (ls : List GoStr) (k i : Nat) (h : i < k) :
    (findViolationsAux k ls).filter (fun v => v.line == (i : Int) + 1) = [] := by
  induction ls generalizing k with
  | nil => simp [findViolationsAux]
  | cons l t ih =>
    simp only [findViolationsAux, List.filter_append]
    rw [checkLine_filter_ne k i (by omega) l, ih (k + 1) (by omega)]
    rfl

/-- The violations of `findViolationsAux` attributed to line `i` are exactly
those produced by `checkLine` on the corresponding line. -/
lemma findViolationsAux_filter (ls : List GoStr) (k i : Nat) (h1 : k ≤ i)
    (h2 : i - k < ls.length) :
    (findViolationsAux k ls).filter (fun v => v.line == (i : Int) + 1)
      = checkLine i (ls.getD (i - k) []) := by
  induction ls generalizing k with
  | nil => simp at h2
  | cons l t ih =>
    simp only [findViolationsAux, List.filter_append]
    by_cases hk : k = i
    · subst hk
      rw [checkLine_filter_self, findViolationsAux_filter_lt t (k + 1) k (by omega)]
      simp
    · have hklt : k < i := lt_of_le_of_ne h1 hk
      rw [checkLine_filter_ne k i hk]
      have h2' : i - (k + 1) < t.length := by
        simp only [List.length_cons] at h2; omega
      rw [ih (k + 1) (by omega) h2']
      have hsub : i - k = (i - (k + 1)) + 1 := by omega
      simp [hsub]

/-- The violations of `findViolations` attributed to line `i` (0-based) are
exactly those of `checkLine` on line `i`. -/
lemma findViolations_filter (content : GoStr) (i : Nat)
    (hi : i < (splitNewline content).length) :
    (findViolations content).filter (fun v => v.line == (i : Int) + 1)
      = checkLine i ((splitNewline content).getD i []) := by
  have := findViolationsAux_filter (splitNewline content) 0 i (Nat.zero_le i)
    (by simpa using hi)
  simpa using this

/-- Dropping an all-whitespace prefix does not change `trimSpace`. -/
lemma trimSpace_ws_append (ws rest : GoStr) (h : ∀ c ∈ ws, isGoSpace c = true) :
    trimSpace (ws ++ rest) = trimSpace rest := by
  unfold trimSpace
  have : (ws ++ rest).dropWhile isGoSpace = rest.dropWhile isGoSpace := by
    induction ws with
    | nil => rfl
    | cons c w ih =>
      have hc : isGoSpace c = true := h c (by simp)
      simp only [List.cons_append, List.dropWhile_cons, hc, if_true]
      exact ih (fun c hc => h c (by simp [hc]))
  rw [this]

/-- `checkLine` only looks at the trimmed line, so leading whitespace is
invisible to it (in particular reported columns are relative to the trimmed
text). -/
lemma checkLine_ws_append (ws rest : GoStr) (h : ∀ c ∈ ws, isGoSpace c = true)
    (n : Nat) : checkLine n (ws ++ rest) = checkLine n rest := by
  unfold checkLine
  rw [trimSpace_ws_append ws rest h]

/-- A line that starts with `//` still starts with `//` after trimming. -/
lemma trimSpace_doubleSlash (l : GoStr) (h : "//".toList.isPrefixOf l = true) :
    "//".toList.isPrefixOf (trimSpace l) = true := by
  obtain ⟨rest, hrest⟩ := List.isPrefixOf_iff_prefix.mp h
  have hl : l = '/' :: '/' :: rest := by rw [← hrest]; rfl
  subst hl
  unfold trimSpace
  rw [show List.dropWhile isGoSpace ('/' :: '/' :: rest) = '/' :: '/' :: rest by
    simp [List.dropWhile_cons, isGoSpace]]
  rw [show ('/' :: '/' :: rest : GoStr).reverse = rest.reverse ++ ['/', '/'] by simp]
  rw [List.dropWhile_append]
  by_cases he : (List.dropWhile isGoSpace rest.reverse).isEmpty = true
  · rw [if_pos he]
    decide
  · rw [if_neg he, List.reverse_append]
    exact List.isPrefixOf_iff_prefix.mpr (List.prefix_append _ _)

/-- A trimmed line starting with `//` is recognized as a comment. -/
lemma isComment_doubleSlash (t : GoStr) (h : "//".toList.isPrefixOf t = true) :
    isComment t = true := by
  rw [isComment]
  simp only [Bool.or_eq_true]
  exact Or.inl (Or.inl (Or.inl (Or.inl h)))

/-- A comment line yields no violations. -/
lemma checkLine_comment (n : Nat) (l : GoStr)
    (h : isComment (trimSpace l) = true) : checkLine n l = [] := by
  unfold checkLine
  by_cases h0 : trimSpace l = [] <;>
    by_cases h1 : isNormalGoConstruct (trimSpace l) <;> simp [h0, h1, h]

/-- On a non-blank, non-construct, non-comment line containing the forbidden
keyword, `checkLine` emits exactly the keyword violation. -/
lemma checkLine_keyword (n : Nat) (l : GoStr)
    (h0 : ¬ trimSpace l = [])
    (h1 : isNormalGoConstruct (trimSpace l) = false)
    (h2 : isComment (trimSpace l) = false)
    (h3 : goContains (toLowerStr (trimSpace l)) forbiddenWord = true) :
    checkLine n l = [emergencyKeywordViolation n l] := by
  unfold checkLine emergencyKeywordViolation
  simp [h0, h1, h2, h3]

/-- Every interval reported by the scanner starts at or after the running
position and is non-empty. -/
lemma scanAllAux_lower (m : GoStr → Option Nat) :
    ∀ (fuel : Nat) (s : GoStr) (i : Nat), ∀ loc ∈ scanAllAux m fuel s i,
      i ≤ loc.1 ∧ loc.1 < loc.2 := by
  intro fuel
  induction fuel with
  | zero => intro s i loc hloc; simp [scanAllAux] at hloc
  | succ f ih =>
    intro s i loc hloc
    cases s with
    | nil => simp [scanAllAux] at hloc
    | cons c t =>
      cases hm : m (c :: t) with
      | none =>
        simp only [scanAllAux, hm] at hloc
        have := ih t (i + 1) loc hloc
        omega
      | some l =>
        cases l with
        | zero =>
          simp only [scanAllAux, hm] at hloc
          have := ih t (i + 1) loc hloc
          omega
        | succ k =>
          simp only [scanAllAux, hm, List.mem_cons] at hloc
          rcases hloc with h | h
          · subst h; constructor <;> omega
          · have := ih (t.drop k) (i + k + 1) loc h
            omega

/-- With a well-formed matcher, every reported interval ends within the
scanned region. -/
lemma scanAllAux_upper (m : GoStr → Option Nat) (hwf : MatcherWF m) :
    ∀ (fuel : Nat) (s : GoStr) (i : Nat), ∀ loc ∈ scanAllAux m fuel s i,
      loc.2 ≤ i + s.length := by
  intro fuel
  induction fuel with
  | zero => intro s i loc hloc; simp [scanAllAux] at hloc
  | succ f ih =>
    intro s i loc hloc
    cases s with
    | nil => simp [scanAllAux] at hloc
    | cons c t =>
      cases hm : m (c :: t) with
      | none =>
        simp only [scanAllAux, hm] at hloc
        have := ih t (i + 1) loc hloc
        simp only [List.length_cons]
        omega
      | some l =>
        cases l with
        | zero =>
          simp only [scanAllAux, hm] at hloc
          have := ih t (i + 1) loc hloc
          simp only [List.length_cons]
          omega
        | succ k =>
          have hlen : k + 1 ≤ (c :: t).length := (hwf _ _ hm).2
          simp only [List.length_cons] at hlen
          simp only [scanAllAux, hm, List.mem_cons] at hloc
          simp only [List.length_cons]
          rcases hloc with h | h
          · subst h; simp; omega
          · have := ih (t.drop k) (i + k + 1) loc h
            simp only [List.length_drop] at this
            omega

/-- The intervals reported by the scanner are pairwise non-overlapping and in
increasing order. -/
lemma scanAllAux_chain (m : GoStr → Option Nat) :
    ∀ (fuel : Nat) (s : GoStr) (i : Nat),
      List.Chain' (fun a b => a.2 ≤ b.1) (scanAllAux m fuel s i) := by
  intro fuel
  induction fuel with
  | zero => intro s i; simp [scanAllAux]
  | succ f ih =>
    intro s i
    cases s with
    | nil => simp [scanAllAux]
    | cons c t =>
      cases hm : m (c :: t) with
      | none => simp only [scanAllAux, hm]; exact ih t (i + 1)
      | some l =>
        cases l with
        | zero => simp only [scanAllAux, hm]; exact ih t (i + 1)
        | succ k =>
          simp only [scanAllAux, hm]
          refine List.chain'_cons'.mpr ⟨?_, ih (t.drop k) (i + k + 1)⟩
          intro b hb
          have hmem : b ∈ scanAllAux m f (t.drop k) (i + k + 1) := by
            cases hx : scanAllAux m f (t.drop k) (i + k + 1) with
            | nil => rw [hx] at hb; simp at hb
            | cons y ys => rw [hx] at hb; simp at hb; subst hb; simp [hx]
          exact (scanAllAux_lower m f _ _ b hmem).1

/-- A matcher that never matches yields no intervals. -/
lemma scanAllAux_none (m : GoStr → Option Nat) (hm : ∀ s, m s = none) :
    ∀ (fuel : Nat) (s : GoStr) (i : Nat), scanAllAux m fuel s i = [] := by
  intro fuel
  induction fuel with
  | zero => intro s i; simp [scanAllAux]
  | succ f ih =>
    intro s i
    cases s with
    | nil => simp [scanAllAux]
    | cons c t => simp only [scanAllAux, hm]; exact ih t (i + 1)

/-- Membership characterization of the per-line match list. -/
lemma mem_findMatchesLine (pats : List Pattern) (n : Nat) (line : GoStr)
    (m : PatternMatch) :
    m ∈ findMatchesLine pats n line ↔
      ∃ p ∈ pats, ∃ loc ∈ scanAll p.matchAt line,
        m = { line := (n : Int) + 1, column := (loc.1 : Int) + 1,
              text := (line.drop loc.1).take (loc.2 - loc.1),
              pattern := p.regexStr } := by
  simp only [findMatchesLine, List.mem_flatMap, List.mem_map]
  constructor
  · rintro ⟨p, hp, loc, hloc, rfl⟩
    exact ⟨p, hp, loc, hloc, rfl⟩
  · rintro ⟨p, hp, loc, hloc, rfl⟩
    exact ⟨p, hp, loc, hloc, rfl⟩

/-- Membership characterization of the line loop of the pattern matcher. -/
lemma mem_findPatternMatchesAux (pats : List Pattern) (ls : List GoStr) (k : Nat)
    (m : PatternMatch) :
    m ∈ findPatternMatchesAux pats k ls ↔
      ∃ i, i < ls.length ∧ m ∈ findMatchesLine pats (k + i) (ls.getD i []) := by
  induction ls generalizing k with
  | nil => simp [findPatternMatchesAux]
  | cons l t ih =>
    simp only [findPatternMatchesAux, List.mem_append, ih (k + 1)]
    constructor
    · rintro (h | ⟨i, hi, hm⟩)
      · exact ⟨0, by simp, by simpa using h⟩
      · refine ⟨i + 1, by simp; omega, ?_⟩
        have : k + 1 + i = k + (i + 1) := by omega
        rw [this] at hm
        simpa using hm
    · rintro ⟨i, hi, hm⟩
      cases i with
      | zero => exact Or.inl (by simpa using hm)
      | succ j =>
        refine Or.inr ⟨j, by simp at hi; omega, ?_⟩
        have : k + 1 + j = k + (j + 1) := by omega
        rw [this]
        simpa using hm

/-- Membership characterization of `FindPatternMatches`: one match per
occurrence of each pattern in each line, with 1-based line and column. -/
lemma mem_FindPatternMatches (content : GoStr) (pats : List Pattern)
    (m : PatternMatch) :
    m ∈ FindPatternMatches content pats ↔
      ∃ i, i < (splitNewline content).length ∧ ∃ p ∈ pats,
        ∃ loc ∈ scanAll p.matchAt ((splitNewline content).getD i []),
          m = { line := (i : Int) + 1, column := (loc.1 : Int) + 1,
                text := (((splitNewline content).getD i []).drop loc.1).take
                  (loc.2 - loc.1),
                pattern := p.regexStr } := by
  rw [FindPatternMatches, mem_findPatternMatchesAux]
  simp [mem_findMatchesLine]

/-- `runValidators` never returns an error: a failing rule checker is logged
and skipped. -/
lemma runValidators_ok (vs : List RuleChecker) (file : FileAnalysis) :
    ∃ p, runValidators vs file = .ok p := by
  induction vs with
  | nil => exact ⟨([], []), rfl⟩
  | cons v rest ih =>
    obtain ⟨⟨tv, ts⟩, hih⟩ := ih
    cases h : v.validate file with
    | error e => exact ⟨(tv, ts), by simp [runValidators, h, hih]⟩
    | ok result =>
      by_cases hv : result.isValid
      · exact ⟨(tv, ts), by simp [runValidators, h, hih, hv]⟩
      · exact ⟨(result.violations ++ tv, result.suggestions ++ ts),
          by simp [runValidators, h, hih, hv]⟩

/-- `runToolValidatorsAux` never returns an error: a failing tool checker is
logged and skipped. -/
lemma runToolValidatorsAux_ok (phase : String) (origName : GoStr)
    (ts : List ToolChecker) (current : ToolInput) (acc : Option ToolInput) :
    ∃ p, runToolValidatorsAux phase origName ts current acc = .ok p := by
  induction ts generalizing current acc with
  | nil => exact ⟨(acc, [], []), rfl⟩
  | cons t rest ih =>
    by_cases hs : toolSupportsOperation t origName
    · cases h : t.validateTool phase current with
      | error e => simpa [runToolValidatorsAux, hs, h] using ih current acc
      | ok result =>
        obtain ⟨⟨m, tv, ts'⟩, hih⟩ := ih (result.modifiedToolInput.getD current)
          (match result.modifiedToolInput with | some mi => some mi | none => acc)
        exact ⟨(m, result.violations ++ tv, result.suggestions ++ ts'),
          by simp [runToolValidatorsAux, hs, h, hih]⟩
    · simpa [runToolValidatorsAux, hs] using ih current acc

/-- `runToolValidators` never returns an error. -/
lemma runToolValidators_ok (ts : List ToolChecker) (phase : String)
    (input : ToolInput) : ∃ p, runToolValidators ts phase input = .ok p :=
  runToolValidatorsAux_ok phase input.toolName ts input none

/-- The rule-checker stage of the pre-action entry point never errors. -/
lemma preFileStep_ok (e : Engine) (input : ToolInput) :
    ∃ p, preFileStep e input = .ok p := by
  unfold preFileStep
  cases hb : isFileOperation input.toolName
  · exact ⟨([], []), by simp [hb]⟩
  · cases hfa : (if input.filePath ≠ [] then CreateFileAnalysis input else none) with
    | none => exact ⟨([], []), by simp [hb, hfa]⟩
    | some fa => simpa [hb, hfa] using runValidators_ok e.validators fa

/-- The pre-action entry point always produces a decision. -/
lemma ProcessPreToolUse_ok (e : Engine) (input : ToolInput) :
    ∃ r, ProcessPreToolUse e input = .ok r := by
  obtain ⟨⟨v1, s1⟩, h1⟩ := preFileStep_ok e input
  obtain ⟨⟨mo, v2, s2⟩, h2⟩ := runToolValidators_ok e.tools ("pre") input
  exact ⟨{ action := determineAction (v1 ++ v2)
           message := generateMessage (determineAction (v1 ++ v2)) (v1 ++ v2)
           suggestions := deduplicateSuggestions (s1 ++ s2)
           level := determineLevel (v1 ++ v2)
           violations := v1 ++ v2
           modifiedToolInput := mo }, by simp [ProcessPreToolUse, h1, h2]⟩

/-- `determineAction` realizes the severity-precedence specification. -/
lemma determineAction_matches (vs : List Violation) :
    (determineAction vs = .block ↔ ∃ v ∈ vs, v.severity = .critical) ∧
    (determineAction vs = .warn ↔
      (¬(∃ v ∈ vs, v.severity = .critical) ∧ ∃ v ∈ vs, v.severity = .warning)) ∧
    (determineAction vs = .allow ↔
      (¬(∃ v ∈ vs, v.severity = .critical) ∧ ¬(∃ v ∈ vs, v.severity = .warning))) := by
  simp only [determineAction]
  split_ifs with hc hw
  · simp_all [List.any_eq_true]
  · simp_all [List.any_eq_true]
  · simp_all [List.any_eq_true]

/-- An always-erroring rule checker at the head of the list is skipped. -/
lemma runValidators_error_skip (c : RuleChecker) (vs : List RuleChecker)
    (file : FileAnalysis) (hc : ∀ f, ∃ msg, c.validate f = .error msg) :
    runValidators (c :: vs) file = runValidators vs file := by
  obtain ⟨msg, hmsg⟩ := hc file
  simp [runValidators, hmsg]

/-- An always-erroring tool checker at the head of the list is skipped. -/
lemma runToolValidatorsAux_error_skip (phase : String) (origName : GoStr)
    (t : ToolChecker) (ts : List ToolChecker) (current : ToolInput)
    (acc : Option ToolInput)
    (ht : ∀ ph i, ∃ msg, t.validateTool ph i = .error msg) :
    runToolValidatorsAux phase origName (t :: ts) current acc
      = runToolValidatorsAux phase origName ts current acc := by
  obtain ⟨msg, hmsg⟩ := ht phase current
  by_cases hs : toolSupportsOperation t origName <;>
    simp [runToolValidatorsAux, hs, hmsg]

/-- Collected stop-phase violations of a list of stop-benign tool checkers
are all of `info` severity. -/
lemma runToolValidatorsAux_stop_info (ts : List ToolChecker)
    (hb : ∀ t ∈ ts, StopBenign t) :
    ∀ (current : ToolInput) (acc : Option ToolInput) m vs ss,
      runToolValidatorsAux ("stop") ("Stop".toList) ts current acc = .ok (m, vs, ss) →
      ∀ v ∈ vs, v.severity = .info := by
  induction ts with
  | nil =>
    intro current acc m vs ss h
    simp only [runToolValidatorsAux, Except.ok.injEq, Prod.mk.injEq] at h
    obtain ⟨-, h2, -⟩ := h
    subst h2
    intro v hv
    simp at hv
  | cons t rest ih =>
    intro current acc m vs ss h
    have hbt := hb t (by simp)
    have hbr : ∀ t ∈ rest, StopBenign t := fun t' ht' => hb t' (by simp [ht'])
    cases hs : toolSupportsOperation t ("Stop".toList) with
    | false =>
      simp only [runToolValidatorsAux, hs, Bool.not_false, if_pos] at h
      exact ih hbr current acc m vs ss h
    | true =>
      cases hv : t.validateTool ("stop") current with
      | error e =>
        simp only [runToolValidatorsAux, hs, Bool.not_true, hv,
          Bool.false_eq_true, if_false] at h
        exact ih hbr current acc m vs ss h
      | ok result =>
        obtain ⟨⟨m', tv, tss⟩, hrec⟩ := runToolValidatorsAux_ok ("stop")
          ("Stop".toList) rest (result.modifiedToolInput.getD current)
          (match result.modifiedToolInput with | some mi => some mi | none => acc)
        simp only [runToolValidatorsAux, hs, Bool.not_true, hv, hrec,
          Bool.false_eq_true, if_false, Except.ok.injEq, Prod.mk.injEq] at h
        obtain ⟨-, h2, -⟩ := h
        subst h2
        intro v hvmem
        rcases List.mem_append.mp hvmem with hmem | hmem
        · exact hbt current result hs hv v hmem
        · exact ih hbr _ _ _ _ _ hrec v hmem

/-- The notifier reports only `info`-severity violations. -/
lemma notifier_stopBenign (enabled : Bool) (pn : String) :
    StopBenign (notifierToolChecker enabled pn) := by
  intro input r _ hok v hv
  simp only [notifierToolChecker, NotifierValidateTool] at hok
  split_ifs at hok
  all_goals rw [Except.ok.injEq] at hok
  all_goals subst hok
  all_goals simp_all

/-- The shell-command checker does not support `Stop` events. -/
lemma bash_stopBenign (cfg : BashCfg) : StopBenign (bashToolChecker cfg) := by
  intro input r hsup
  have h : toolSupportsOperation (bashToolChecker cfg) ("Stop".toList) = false := rfl
  rw [h] at hsup
  exact Bool.noConfusion hsup

/-- The formatter does not support `Stop` events. -/
lemma formatter_stopBenign (cfg : FormatterCfg) (env : FormatterEnv) :
    StopBenign (formatterToolChecker cfg env) := by
  intro input r hsup
  have h : toolSupportsOperation (formatterToolChecker cfg env) ("Stop".toList)
      = false := rfl
  rw [h] at hsup
  exact Bool.noConfusion hsup

/-- Every tool checker the engine can be configured with is stop-benign. -/
lemma mkTools_stopBenign (tc : ToolsConfig) (pn : String) (env : FormatterEnv) :
    ∀ t ∈ mkTools tc pn env, StopBenign t := by
  intro t ht
  simp only [mkTools, List.mem_append] at ht
  rcases ht with (ht | ht) | ht
  · cases hn : tc.notifier with
    | none => rw [hn] at ht; simp at ht
    | some en =>
      rw [hn] at ht
      by_cases he : en = true <;> simp [he] at ht
      rw [ht]
      exact notifier_stopBenign true pn
  · cases hn : tc.bash with
    | none => rw [hn] at ht; simp at ht
    | some cfg =>
      rw [hn] at ht
      by_cases he : cfg.enabled = true <;> simp [he] at ht
      rw [ht]
      exact bash_stopBenign cfg
  · cases hn : tc.formatter with
    | none => rw [hn] at ht; simp at ht
    | some cfg =>
      rw [hn] at ht
      by_cases he : cfg.enabled = true <;> simp [he] at ht
      rw [ht]
      exact formatter_stopBenign cfg env

/-- The default wallet matcher is well formed: its matches are non-empty and
in bounds. -/
lemma walletMatchAt_wf : MatcherWF walletMatchAt := by
  intro s l h
  unfold walletMatchAt at h
  split at h
  · next rest =>
    split_ifs at h with hc
    rw [Option.some.injEq] at h
    subst h
    simp only [Bool.and_eq_true, decide_eq_true_eq] at hc
    simp only [List.length_cons]
    omega
  · exact absurd h (by simp)

/-! ## Claim theorems. -/

/-- C1: for every invocation at every entry point (pre-action, post-action,
session-end) of an engine with any rule checkers and any configured tool
checkers, the action of the returned decision is `block` iff at least one collected
violation is `critical`, otherwise `warn` iff at least one is `warning`,
otherwise `allow`. -/
theorem c1_decision_action_iff_severity (vs : List RuleChecker) (tc : ToolsConfig)
    (pn : String) (env : FormatterEnv) (input : ToolInput) :
    (∀ r, ProcessPreToolUse ⟨vs, mkTools tc pn env⟩ input = .ok r →
      ActionMatchesSeverity r) ∧
    (∀ r, ProcessPostToolUse ⟨vs, mkTools tc pn env⟩ input = .ok r →
      ActionMatchesSeverity r) ∧
    (∀ r, ProcessStop ⟨vs, mkTools tc pn env⟩ = .ok r → ActionMatchesSeverity r) := by
  refine ⟨?_, ?_, ?_⟩
  · intro r hr
    obtain ⟨⟨v1, s1⟩, h1⟩ := preFileStep_ok ⟨vs, mkTools tc pn env⟩ input
    obtain ⟨⟨mo, v2, s2⟩, h2⟩ := runToolValidators_ok (mkTools tc pn env) "pre" input
    simp only [ProcessPreToolUse, h1, h2, Except.ok.injEq] at hr
    subst hr
    exact determineAction_matches (v1 ++ v2)
  · intro r hr
    obtain ⟨⟨mo, v2, s2⟩, h2⟩ := runToolValidators_ok (mkTools tc pn env) "post" input
    simp only [ProcessPostToolUse, h2, Except.ok.injEq] at hr
    subst hr
    exact determineAction_matches v2
  · intro r hr
    obtain ⟨⟨mo, v2, s2⟩, h2⟩ := runToolValidators_ok (mkTools tc pn env) "stop"
      { toolName := "Stop".toList }
    have hinfo : ∀ v ∈ v2, v.severity = .info :=
      runToolValidatorsAux_stop_info (mkTools tc pn env)
        (mkTools_stopBenign tc pn env) _ _ _ _ _ h2
    simp only [ProcessStop, h2, Except.ok.injEq] at hr
    subst hr
    have hnc : ¬ ∃ v ∈ v2, v.severity = .critical := by
      rintro ⟨v, hvm, hcv⟩
      have hi := hinfo v hvm
      rw [hcv] at hi
      exact Level.noConfusion hi
    have hnw : ¬ ∃ v ∈ v2, v.severity = .warning := by
      rintro ⟨v, hvm, hcv⟩
      have hi := hinfo v hvm
      rw [hcv] at hi
      exact Level.noConfusion hi
    exact ⟨iff_of_false (by simp) hnc, iff_of_false (by simp) (fun h => hnw h.2),
      iff_of_true rfl ⟨hnc, hnw⟩⟩

/-- Witness for C1: the session-end decision of an engine with no configured
checkers satisfies the severity/action correspondence. -/
theorem c1_witness :
    ActionMatchesSeverity
      { action := .allow, message := "Stop processing completed", suggestions := [],
        level := .info, violations := [], modifiedToolInput := none } :=
  (c1_decision_action_iff_severity [] ⟨none, none, none⟩ "p" emptyFmtEnv
    { toolName := "Stop".toList }).2.2 _ rfl

/-- C2 counterexample: with a tool checker whose evaluation returns a runtime
error, the pre-action invocation does not halt — it still produces a decision
(the claim asserts it would return an error and produce no decision). -/
theorem c2_counterexample :
    ProcessPreToolUse { validators := [], tools := [badToolChecker] } c2Input
      = .ok { action := .allow, message := "Operation allowed", suggestions := [],
              level := .info, violations := [], modifiedToolInput := none } := by
  rfl

/-- C2 (amended): a Tool Checker that errors during pre-action evaluation is —
exactly like a Rule Checker — logged and skipped, its result discarded, and
the invocation still produces a decision. -/
theorem c2_checker_errors_skipped (e : Engine) (c : RuleChecker) (t : ToolChecker)
    (input : ToolInput)
    (hc : ∀ f, ∃ msg, c.validate f = .error msg)
    (ht : ∀ phase i, ∃ msg, t.validateTool phase i = .error msg) :
    ProcessPreToolUse { validators := c :: e.validators, tools := t :: e.tools } input
        = ProcessPreToolUse e input ∧
      ∃ r, ProcessPreToolUse e input = .ok r := by
  constructor
  · have hpre : preFileStep ⟨c :: e.validators, t :: e.tools⟩ input
        = preFileStep e input := by
      unfold preFileStep
      cases hb : isFileOperation input.toolName
      · simp [hb]
      · cases hfa : (if input.filePath ≠ [] then CreateFileAnalysis input else none) with
        | none => simp [hb, hfa]
        | some fa =>
          simp only [hb, hfa]
          exact runValidators_error_skip c e.validators fa hc
    have htool : runToolValidators (t :: e.tools) "pre" input
        = runToolValidators e.tools ("pre") input :=
      runToolValidatorsAux_error_skip ("pre") input.toolName t e.tools input none ht
    unfold ProcessPreToolUse
    rw [hpre]
    rw [show ({ validators := c :: e.validators, tools := t :: e.tools } : Engine).tools
      = t :: e.tools from rfl]
    rw [htool]
  · exact ProcessPreToolUse_ok e input

/-- Witness for C2 (amended): concrete always-erroring checkers are skipped
and the invocation still decides. -/
theorem c2_witness :
    ProcessPreToolUse { validators := [badRuleChecker], tools := [badToolChecker] }
        c2Input
      = ProcessPreToolUse { validators := [], tools := [] } c2Input ∧
    ∃ r, ProcessPreToolUse { validators := [], tools := [] } c2Input = .ok r :=
  c2_checker_errors_skipped { validators := [], tools := [] } badRuleChecker
    badToolChecker c2Input (fun _ => ⟨"boom", rfl⟩) (fun _ _ => ⟨"boom", rfl⟩)

/-- C3: in an enabled, non-exception, supported file, a whole-word
case-insensitive occurrence of the forbidden keyword on a line that is neither
a recognized construct nor a comment yields exactly one critical violation at
that line, and any line starting with `//` yields none. -/
theorem c3_forbidden_keyword (cfg : EmergencyCfg) (file : FileAnalysis) (i : Nat)
    (hen : cfg.enabled = true)
    (hex : EmergencyIsExceptionFile cfg file.path = false)
    (hsup : isSupportedFileType file.path emergencySupportedExts = true)
    (hi : i < (splitNewline file.content).length)
    (hcon : isNormalGoConstruct
      (trimSpace ((splitNewline file.content).getD i [])) = false)
    (hcom : isComment (trimSpace ((splitNewline file.content).getD i [])) = false)
    (hword : wholeWordContains
      (toLowerStr (trimSpace ((splitNewline file.content).getD i [])))
      forbiddenWord = true) :
    ∃ res, EmergencyValidate cfg file = .ok res ∧ res.isValid = false ∧
      res.violations.filter (fun v => v.line == (i : Int) + 1)
        = [emergencyKeywordViolation i ((splitNewline file.content).getD i [])] ∧
      ∀ j, j < (splitNewline file.content).length →
        "//".toList.isPrefixOf ((splitNewline file.content).getD j []) = true →
        res.violations.filter (fun v => v.line == (j : Int) + 1) = [] := by
  have htrim_ne : ¬ trimSpace ((splitNewline file.content).getD i []) = [] := by
    intro h0
    rw [h0] at hword
    exact absurd hword (by decide)
  have hcontains := goContains_of_wholeWord _ _ hword
  have hck : checkLine i ((splitNewline file.content).getD i [])
      = [emergencyKeywordViolation i ((splitNewline file.content).getD i [])] :=
    checkLine_keyword i _ htrim_ne hcon hcom hcontains
  have hfv : (findViolations file.content).filter (fun v => v.line == (i : Int) + 1)
      = [emergencyKeywordViolation i ((splitNewline file.content).getD i [])] := by
    rw [findViolations_filter file.content i hi, hck]
  have hnonempty : ¬ findViolations file.content = [] := by
    intro hnil
    rw [hnil] at hfv
    simp at hfv
  refine ⟨{ isValid := false, violations := findViolations file.content,
            suggestions := emergencySuggestions, modifiedToolInput := none },
    ?_, rfl, hfv, ?_⟩
  · simp [EmergencyValidate, hen, hex, hsup, hnonempty]
  · intro j hj hpref
    show (findViolations file.content).filter (fun v => v.line == (j : Int) + 1) = []
    rw [findViolations_filter file.content j hj]
    exact checkLine_comment j _ (isComment_doubleSlash _ (trimSpace_doubleSlash _ hpref))

/-- Witness for C3: the file `app.go` with content `use fallback now`. -/
theorem c3_witness :
    ∃ res, EmergencyValidate { enabled := true } c3File = .ok res ∧
      res.isValid = false ∧
      res.violations.filter (fun v => v.line == ((0 : Nat) : Int) + 1)
        = [emergencyKeywordViolation 0 ((splitNewline c3File.content).getD 0 [])] ∧
      ∀ j, j < (splitNewline c3File.content).length →
        "//".toList.isPrefixOf ((splitNewline c3File.content).getD j []) = true →
        res.violations.filter (fun v => v.line == (j : Int) + 1) = [] :=
  c3_forbidden_keyword { enabled := true } c3File 0 rfl (by decide) (by decide)
    (by decide) (by decide) (by decide) (by decide)

/-- C4: in a supported, non-exception file, `value := x || "default"` (a
literal after `||`) yields one critical violation from the `||`-default rule,
while `value := x || computeDefault()` (no literal) yields none. -/
theorem c4_or_literal_default :
    (EmergencyValidate { enabled := true }
        { path := "app.go".toList,
          content := "value := x || \"default\"".toList }).toOption.map
        (fun r => (r.isValid, r.violations.map fun v => (v.vtype, v.severity, v.message, v.line)))
      = some (false, [("critical_default", Level.critical,
          "Обнаружен || default паттерн", 1)]) ∧
    EmergencyValidate { enabled := true }
        { path := "app.go".toList, content := "value := x || computeDefault()".toList }
      = .ok { isValid := true } :=
  ⟨rfl, rfl⟩

/-- C5: the pattern matcher splits on newlines and emits one match per
non-overlapping occurrence of each (well-formed) pattern in each line, with
1-based line number, 1-based column, matched text and originating pattern;
empty content and never-matching patterns yield no matches. -/
theorem c5_pattern_matcher_contract (content : GoStr) (pats : List Pattern)
    (hwf : ∀ p ∈ pats, MatcherWF p.matchAt) :
    (∀ m, m ∈ FindPatternMatches content pats ↔
      ∃ i, i < (splitNewline content).length ∧ ∃ p ∈ pats,
        ∃ loc ∈ scanAll p.matchAt ((splitNewline content).getD i []),
          m = { line := (i : Int) + 1, column := (loc.1 : Int) + 1,
                text := (((splitNewline content).getD i []).drop loc.1).take
                  (loc.2 - loc.1),
                pattern := p.regexStr }) ∧
    (∀ p ∈ pats, ∀ line ∈ splitNewline content,
      List.Chain' (fun a b => a.2 ≤ b.1) (scanAll p.matchAt line) ∧
      ∀ loc ∈ scanAll p.matchAt line, loc.1 < loc.2 ∧ loc.2 ≤ line.length) ∧
    FindPatternMatches [] pats = [] ∧
    ((∀ p ∈ pats, ∀ s, p.matchAt s = none) → FindPatternMatches content pats = []) := by
  refine ⟨mem_FindPatternMatches content pats, ?_, ?_, ?_⟩
  · intro p hp line _
    refine ⟨scanAllAux_chain p.matchAt line.length line 0, ?_⟩
    intro loc hloc
    have h1 := scanAllAux_lower p.matchAt line.length line 0 loc hloc
    have h2 := scanAllAux_upper p.matchAt (hwf p hp) line.length line 0 loc hloc
    exact ⟨h1.2, by omega⟩
  · simp [FindPatternMatches, splitNewline, splitOnChar, findPatternMatchesAux,
      findMatchesLine, scanAll, scanAllAux]
  · intro hnone
    rw [List.eq_nil_iff_forall_not_mem]
    intro m hm
    rw [mem_FindPatternMatches] at hm
    obtain ⟨i, _, p, hp, loc, hloc, -⟩ := hm
    rw [scanAll, scanAllAux_none p.matchAt (hnone p hp)] at hloc
    simp at hloc

/-- Witness for C5: the wallet pattern finds its occurrence in `walletContent`
at line 1, column 8. -/
theorem c5_witness :
    ({ line := 1, column := 8,
       text := "0x1234567890abcdef1234567890abcdef12345678".toList,
       pattern := walletPattern.regexStr } : PatternMatch)
      ∈ FindPatternMatches walletContent [walletPattern] := by
  have h := (c5_pattern_matcher_contract walletContent [walletPattern]
    (by intro p hp; rw [List.mem_singleton] at hp; subst hp; exact walletMatchAt_wf)).1
  exact (h _).mpr ⟨0, by decide, walletPattern, by simp, (7, 49), by decide, by decide⟩

/-- C6 counterexample: a supported Go file (`wallet_test.go`) holding a wallet
address whose path contains no configured test-config marker nevertheless
yields no violation — the built-in test-file exception suppresses it, which
the claim as stated does not allow. -/
theorem c6_counterexample :
    SecretsValidate c6Cfg c6File = .ok { isValid := true } ∧
    FindPatternMatches walletContent [walletPattern] ≠ [] ∧
    isTestConfigException c6Cfg c6File.path = false ∧
    isSupportedFileType c6File.path secretsSupportedExts = true := by
  refine ⟨rfl, ?_, rfl, rfl⟩
  decide

/-- The wallet violation reported for 0-based line `i` and 0-based column
`col` (the fields of `CreateViolation` in `checkWalletAddresses`). -/
def walletViolation (i col : Nat) : Violation :=
  { vtype := "hardcoded_wallet"
    message := "Обнаружен hardcoded wallet address"
    suggestion := "Используй TEST_ACCOUNTS из test-config или переменные окружения"
    line := (i : Int) + 1
    column := (col : Int) + 1
    severity := .critical }

/-- C6 (amended): in an enabled, supported file that matches none of the
exception rules of the checker (configured exception paths, documentation/test
files, example/fixture paths, test-config markers), every occurrence of
`0x` + 40 hex digits yields a critical `hardcoded_wallet` violation at its
line and column; and any file whose path contains a configured test-config
marker yields no violation at all. -/
theorem c6_wallet_address (cfg : SecretsCfg) (file : FileAnalysis) (i : Nat)
    (loc : Nat × Nat)
    (hen : cfg.enabled = true)
    (hex : SecretsIsExceptionFile cfg file.path = false)
    (hsup : isSupportedFileType file.path secretsSupportedExts = true)
    (hi : i < (splitNewline file.content).length)
    (hloc : loc ∈ scanAll walletMatchAt ((splitNewline file.content).getD i [])) :
    (∃ res, SecretsValidate cfg file = .ok res ∧ res.isValid = false ∧
      walletViolation i loc.1 ∈ res.violations) ∧
    (∀ (cfg2 : SecretsCfg) (file2 : FileAnalysis),
      isTestConfigException cfg2 file2.path = true →
      SecretsValidate cfg2 file2 = .ok { isValid := true }) := by
  have htce : isTestConfigException cfg file.path = false := by
    simp only [SecretsIsExceptionFile, Bool.or_eq_false_iff] at hex
    exact hex.2
  constructor
  · have hmem :
        ({ line := (i : Int) + 1, column := (loc.1 : Int) + 1,
           text := (((splitNewline file.content).getD i []).drop loc.1).take
             (loc.2 - loc.1),
           pattern := walletPattern.regexStr } : PatternMatch)
          ∈ FindPatternMatches file.content [walletPattern] :=
      (mem_FindPatternMatches file.content [walletPattern] _).mpr
        ⟨i, hi, walletPattern, by simp, loc, hloc, rfl⟩
    have hvmem : walletViolation i loc.1 ∈ checkWalletAddresses cfg file := by
      apply List.mem_filterMap.mpr
      refine ⟨_, hmem, ?_⟩
      rw [htce]
      rfl
    have hall : walletViolation i loc.1
        ∈ checkJWTTokens cfg file ++ checkWalletAddresses cfg file
            ++ checkAPIKeys cfg file :=
      List.mem_append.mpr (Or.inl (List.mem_append.mpr (Or.inr hvmem)))
    have hnonempty : ¬ (checkJWTTokens cfg file ++ checkWalletAddresses cfg file
        ++ checkAPIKeys cfg file) = [] := List.ne_nil_of_mem hall
    refine ⟨{ isValid := false,
              violations := checkJWTTokens cfg file ++ checkWalletAddresses cfg file
                ++ checkAPIKeys cfg file,
              suggestions := secretsGenerateSuggestions file,
              modifiedToolInput := none }, ?_, rfl, hall⟩
    simp only [SecretsValidate, hen, hex, hsup, Bool.not_true, Bool.false_eq_true,
      if_false, Bool.not_false, if_true]
    simp [hnonempty]
    exact fun h1 h2 h3 => hnonempty (by simp [h1, h2, h3])
  · intro cfg2 file2 hm
    by_cases he : cfg2.enabled
    · simp [SecretsValidate, SecretsIsExceptionFile, hm, he]
    · simp [SecretsValidate, he]

/-- Witness for C6 (amended): the wallet address in `wallet.go` yields the
critical violation at line 1, column 8; a file with a test-config marker in
its path yields none. -/
theorem c6_witness :
    (∃ res, SecretsValidate c6wCfg c6wFile = .ok res ∧ res.isValid = false ∧
      walletViolation 0 7 ∈ res.violations) ∧
    SecretsValidate c6wCfg
        { path := "src/test-config.ts".toList, content := walletContent,
          extension := ".ts".toList }
      = .ok { isValid := true } := by
  have h := c6_wallet_address c6wCfg c6wFile 0 (7, 49) rfl (by decide) (by decide)
    (by decide) (by decide)
  exact ⟨h.1, h.2 c6wCfg _ (by decide)⟩

/-- C7: with the forced-termination checker enabled and no exception paths, a
pre-action `Write` of `panic("boom")` to `service.go` blocks with exactly one
violation of the panic sub-type, while the same content written to
`cmd/app/main.go` is allowed (entrypoint exception). -/
theorem c7_panic_write_end_to_end :
    (ProcessPreToolUse runtimeOnlyEngine
        { toolName := "Write".toList, filePath := "service.go".toList,
          content := "panic(\"boom\")".toList }).toOption.map
        (fun r => (r.action, r.violations.map fun v => (v.vtype, v.severity)))
      = some (.block, [("runtime_exit_usage", Level.critical)]) ∧
    (ProcessPreToolUse runtimeOnlyEngine
        { toolName := "Write".toList, filePath := "cmd/app/main.go".toList,
          content := "panic(\"boom\")".toList }).toOption.map
        (fun r => (r.action, r.violations))
      = some (.allow, []) :=
  ⟨rfl, rfl⟩

/-- C8: with the default blocked patterns, any shell command containing
`rm -rf /` is reported invalid with a critical violation, the command
`rm -rf ./build` is valid with no violations, and any non-shell event kind is
always valid with no violations. -/
theorem c8_dangerous_shell_commands :
    (∀ cmd : GoStr, goContains cmd ("rm -rf /".toList) = true →
      ∃ r, BashValidateTool defaultBashCfg { toolName := "Bash".toList, command := cmd }
          = .ok r ∧ r.isValid = false ∧
        ∃ v ∈ r.violations, v.vtype = "dangerous_bash_command" ∧
          v.severity = .critical) ∧
    BashValidateTool defaultBashCfg
        { toolName := "Bash".toList, command := "rm -rf ./build".toList }
      = .ok { isValid := true } ∧
    (∀ input : ToolInput, input.toolName ≠ "Bash".toList →
      BashValidateTool defaultBashCfg input = .ok { isValid := true }) := by
  refine ⟨?_, rfl, ?_⟩
  · intro cmd hcmd
    have hne : cmd ≠ [] := by
      intro h
      subst h
      exact Bool.noConfusion hcmd
    have hvmem :
        ({ vtype := "dangerous_bash_command",
           message := "Dangerous bash command detected: "
             ++ String.mk ("rm -rf /".toList),
           suggestion := "Avoid potentially destructive commands",
           line := 1, column := goIndex cmd ("rm -rf /".toList) + 1,
           severity := Level.critical } : Violation)
          ∈ bashViolations defaultBashCfg cmd := by
      apply List.mem_filterMap.mpr
      refine ⟨"rm -rf /".toList, by decide, ?_⟩
      rw [if_pos hcmd]
    have hnonempty : bashViolations defaultBashCfg cmd ≠ [] :=
      List.ne_nil_of_mem hvmem
    refine ⟨{ isValid := (bashViolations defaultBashCfg cmd).isEmpty,
              violations := bashViolations defaultBashCfg cmd }, ?_, ?_,
      _, hvmem, rfl, rfl⟩
    · simp [BashValidateTool, defaultBashCfg, extractCommand, hne]
    · simpa using hnonempty
  · intro input hname
    unfold BashValidateTool
    rw [if_neg (by decide), if_pos hname]

/-- Witness for C8: the command `rm -rf /tmp` contains the blocked substring
and is reported invalid with a critical violation. -/
theorem c8_witness :
    ∃ r, BashValidateTool defaultBashCfg
        { toolName := "Bash".toList, command := "rm -rf /tmp".toList } = .ok r ∧
      r.isValid = false ∧
      ∃ v ∈ r.violations, v.vtype = "dangerous_bash_command" ∧
        v.severity = .critical :=
  c8_dangerous_shell_commands.1 ("rm -rf /tmp".toList) (by decide)

/-- C9 (implicit): the forbidden-keyword check is case-insensitive substring
containment, not whole-word — the line `x := fallbackValue` contains the
keyword only as a proper substring of a longer identifier, yet still draws a
critical violation. -/
theorem c9_substring_containment :
    (findViolations ("x := fallbackValue".toList)).map
        (fun v => (v.vtype, v.severity, v.line))
      = [("critical_default", Level.critical, 1)] ∧
    wholeWordContains (toLowerStr (trimSpace ("x := fallbackValue".toList)))
        forbiddenWord = false ∧
    goContains (toLowerStr (trimSpace ("x := fallbackValue".toList)))
        forbiddenWord = true ∧
    (EmergencyValidate { enabled := true }
        { path := "app.go".toList, content := "x := fallbackValue".toList }).toOption.map
        (fun r => r.isValid)
      = some false :=
  ⟨rfl, rfl, rfl, rfl⟩

/-- C10 (implicit): the reported column is computed against the
whitespace-trimmed line — leading whitespace is invisible to `checkLine` — so
for `"  use fallback now"` the reported column is 5 while the true 1-based
column of the keyword in the original line is 7. -/
theorem c10_column_against_trimmed_line :
    (∀ (ws rest : GoStr), (∀ c ∈ ws, isGoSpace c = true) → ∀ n,
      checkLine n (ws ++ rest) = checkLine n rest) ∧
    (findViolations ("  use fallback now".toList)).map (fun v => (v.line, v.column))
      = [(1, 5)] ∧
    goIndex (toLowerStr ("  use fallback now".toList)) forbiddenWord + 1 = 7 ∧
    (5 : Int) ≠ 7 :=
  ⟨fun ws rest h n => checkLine_ws_append ws rest h n, rfl, rfl, by decide⟩

/-- Witness for C10: two leading spaces are invisible to the per-line
checker. -/
theorem c10_witness :
    checkLine 0 ("  ".toList ++ "x := 1".toList) = checkLine 0 ("x := 1".toList) :=
  c10_column_against_trimmed_line.1 ("  ".toList) ("x := 1".toList) (by decide) 0
